import Mathlib

/-
Verification development for the claude-dot-ai-share-scraper repository.

The Python source (src/claude_dot_ai_share_scraper/parser.py and utils.py) is
shallowly embedded below: the parsed HTML tree of BeautifulSoup becomes the
inductive type Node, each parser method becomes a Lean function of the same
name (camel-cased), and Python string idioms (strip, rstrip, lower, substring
membership, str.split, re.sub for the two concrete regexes used) become
explicit executable functions on lists of characters.

Modelling notes, fixed throughout:
- Python truthiness of a string is emptiness; of a list, emptiness.
- BeautifulSoup specifics: `Tag.find` / `find_all` / `select_one` search
  strict descendants in document (pre-)order; `Tag.children` iterates direct
  children; `get_text()` concatenates all descendant strings in order;
  `get_text(strip=True)` concatenates the individually stripped strings;
  `hasattr(x, "name")` holds for every page element in modern BeautifulSoup
  (NavigableString.name is None), so sibling counting in
  `_get_simple_position` counts all preceding siblings, text nodes included;
  `class` is a list of class tokens.
- The Pygments lexer lookup inside `_apply_pygments_highlighting` is an
  external library call that can only rewrite the language tag, never the
  code text; it is kept abstract as a `resolve` argument, and instantiating
  `resolve` with `fun _ lang => lang` gives the ImportError fallback branch
  of the source verbatim.
-/

namespace Scraper

/-! ## Python string primitives -/

/-- Whitespace characters of the Python `str.strip` / regex `\s` class
(ASCII range; the inputs in this development are ASCII). -/
def isPyWs (c : Char) : Bool :=
  c == ' ' || c == '\t' || c == '\n' || c == '\r' || c == '\x0b' || c == '\x0c'

/-- Models Python `str.strip()` on the character list. -/
def pyStripList (cs : List Char) : List Char :=
  ((cs.dropWhile isPyWs).reverse.dropWhile isPyWs).reverse

/-- Models Python `str.strip()`. -/
def pyStrip (s : String) : String :=
  String.mk (pyStripList s.data)

/-- Models Python `str.rstrip()` (used per line by the code cleaner). -/
def pyRstrip (s : String) : String :=
  String.mk ((s.data.reverse.dropWhile isPyWs).reverse)

/-- Models Python `str.lower()` (ASCII). -/
def pyLower (s : String) : String :=
  String.mk (s.data.map Char.toLower)

/-- Models Python `str.upper()` (ASCII). -/
def pyUpper (s : String) : String :=
  String.mk (s.data.map Char.toUpper)

/-- Does the list start with the given pattern of characters? -/
def listStartsWith : List Char → List Char → Bool
  | _, [] => true
  | [], _ :: _ => false
  | c :: cs, p :: ps => c == p && listStartsWith cs ps

/-- Does the pattern occur as a contiguous sublist?  Models Python
`needle in hay` on strings. -/
def occursIn (pat : List Char) : List Char → Bool
  | [] => listStartsWith [] pat
  | c :: cs => listStartsWith (c :: cs) pat || occursIn pat cs

/-- Models Python `needle in hay` for strings. -/
def hasSub (hay needle : String) : Bool :=
  occursIn needle.data hay.data

/-- Models Python `hay.startswith(needle)`. -/
def strStartsWith (s p : String) : Bool :=
  listStartsWith s.data p.data

/-- Helper for `splitLines`: accumulates the current line (reversed). -/
def splitLinesAux : List Char → List Char → List String
  | acc, [] => [String.mk acc.reverse]
  | acc, c :: cs =>
    if c == '\n' then String.mk acc.reverse :: splitLinesAux [] cs
    else splitLinesAux (c :: acc) cs

/-- Models Python `s.split("\n")`. -/
def splitLines (s : String) : List String :=
  splitLinesAux [] s.data

/-- Models Python `sep.join(parts)`. -/
def joinWith (sep : String) : List String → String
  | [] => ""
  | [x] => x
  | x :: y :: xs => x ++ sep ++ joinWith sep (y :: xs)

/-- Models one pass of Python `re.sub("\\s+", " ", s)`: every maximal run of
whitespace becomes a single space.  The flag records whether the previous
character was whitespace. -/
def normWsAux : Bool → List Char → List Char
  | _, [] => []
  | inWs, c :: cs =>
    if isPyWs c then
      if inWs then normWsAux true cs else ' ' :: normWsAux true cs
    else c :: normWsAux false cs

/-- Models Python `re.sub("\\s+", " ", s)`. -/
def normWs (s : String) : String :=
  String.mk (normWsAux false s.data)

/-- Fuel-driven helper for `removeAllOccur`; the fuel is the input length, so
it never runs out on the argument it is called with. -/
def removeAllOccurAux (pat : List Char) : Nat → List Char → List Char
  | 0, cs => cs
  | _ + 1, [] => []
  | fuel + 1, c :: cs =>
    if pat ≠ [] && listStartsWith (c :: cs) pat then
      removeAllOccurAux pat fuel ((c :: cs).drop pat.length)
    else c :: removeAllOccurAux pat fuel cs

/-- Models Python `s.replace(pat, "")`: delete every (left-to-right,
non-overlapping) occurrence of the pattern. -/
def removeAllOccur (pat s : String) : String :=
  String.mk (removeAllOccurAux pat.data s.data.length s.data)

example : removeAllOccur "language-" "language-python" = "python" := by decide
example : pyStrip "  a b \n" = "a b" := by decide
example : normWs "a \n\t b" = "a b" := by decide
example : hasSub "p-3.5 x" "p-3" = true := by decide
example : joinWith "\n\n" ["a", "b", "c"] = "a\n\nb\n\nc" := by decide
example : splitLines "a\n\nb " = ["a", "", "b "] := by decide

/-! ## The DOM model

A parsed HTML tree: an element carries its tag name, its non-class
attributes, its class token list (BeautifulSoup exposes `class` as a list of
tokens) and its children in document order.  A text node carries its string.
This is the shallow embedding of the BeautifulSoup `Tag` / `NavigableString`
view used by parser.py. -/

inductive Node where
  | text (s : String)
  | elem (tag : String) (attrs : List (String × String))
      (classes : List String) (children : List Node)

/-- Is this node an element (a BeautifulSoup `Tag`)? -/
def Node.isElem : Node → Bool
  | .text _ => false
  | .elem .. => true

/-- Direct children (empty for text nodes). -/
def Node.childList : Node → List Node
  | .text _ => []
  | .elem _ _ _ cs => cs

/-- Class token list, `element.get("class", [])`. -/
def Node.classesOf : Node → List String
  | .text _ => []
  | .elem _ _ c _ => c

/-- Attribute lookup, `element.get(name)` for non-class attributes. -/
def Node.attr : Node → String → Option String
  | .text _, _ => none
  | .elem _ attrs _ _, k => (attrs.find? (fun p => p.1 == k)).map Prod.snd

/-- Tag name (empty for text nodes; BeautifulSoup text nodes have name None). -/
def Node.tagOf : Node → String
  | .text _ => ""
  | .elem t _ _ _ => t

/-- Is this an element with the given tag name? -/
def tagIs (n : Node) (t : String) : Bool :=
  match n with
  | .elem tag _ _ _ => tag == t
  | .text _ => false

/-- Does the element carry attribute `k` with value `v`? -/
def attrEq (n : Node) (k v : String) : Bool :=
  n.attr k == some v

/-- Does the element carry the class token (BeautifulSoup `class_` match /
CSS class selector)? -/
def hasClassToken (n : Node) (c : String) : Bool :=
  n.classesOf.contains c

/-- Models `" ".join(element.get("class", []))`, the joined class string the
source repeatedly probes with Python substring membership. -/
def joinedClasses (n : Node) : String :=
  joinWith " " n.classesOf

/-- Models `element.get_text()`: concatenation of every descendant string in
document order. -/
def getText : Node → String
  | .text s => s
  | .elem _ _ _ cs => goList cs
where goList : List Node → String
  | [] => ""
  | c :: cs => getText c ++ goList cs

/-- Models `element.get_text(strip=True)`: each descendant string is stripped
and the results are concatenated. -/
def getTextStripped : Node → String
  | .text s => pyStrip s
  | .elem _ _ _ cs => goList cs
where goList : List Node → String
  | [] => ""
  | c :: cs => getTextStripped c ++ goList cs

/-- Models `tag.string`: the single string of a chain of single-child
elements, None otherwise. -/
def dotString : Node → Option String
  | .text s => some s
  | .elem _ _ _ [c] => dotString c
  | .elem _ _ _ _ => none

/-- Models `element.find(pred)`: first strict descendant element, in document
order, satisfying the predicate. -/
def findFirst (pred : Node → Bool) : Node → Option Node
  | .text _ => none
  | .elem _ _ _ cs => goList cs
where goList : List Node → Option Node
  | [] => none
  | c :: cs =>
    match c with
    | .text _ => goList cs
    | .elem .. =>
      if pred c then some c
      else
        match findFirst pred c with
        | some r => some r
        | none => goList cs

/-- Models `element.find_all(pred)`: all strict descendant elements, in
document order, satisfying the predicate. -/
def findAllNodes (pred : Node → Bool) : Node → List Node
  | .text _ => []
  | .elem _ _ _ cs => goList cs
where goList : List Node → List Node
  | [] => []
  | c :: cs =>
    match c with
    | .text _ => goList cs
    | .elem .. =>
      (if pred c then [c] else []) ++ findAllNodes pred c ++ goList cs

/-- Models `element.find(pred)` returning the match together with its direct
DOM parent (needed because `_detect_code_language` inspects
`code_element.parent`). -/
def findFirstWithParent (pred : Node → Bool) : Node → Option (Node × Node)
  | .text _ => none
  | .elem t a cl cs => goList (Node.elem t a cl cs) cs
where goList (par : Node) : List Node → Option (Node × Node)
  | [] => none
  | c :: cs =>
    match c with
    | .text _ => goList par cs
    | .elem .. =>
      if pred c then some (c, par)
      else
        match findFirstWithParent pred c with
        | some r => some r
        | none => goList par cs

example :
    getText (.elem "div" [] [] [.text "a", .elem "p" [] [] [.text "b"]]) = "ab" := by
  decide

example :
    (findFirst (fun n => tagIs n "p")
      (.elem "div" [] [] [.text "a", .elem "p" [] [] [.text "b"]])).isSome = true := by
  decide

/-! ## Paths and document-order positions

A node inside a document is addressed by the list of child indices from the
document root; this replaces BeautifulSoup parent pointers (the spec's weak
parent back-reference) by prefix paths. -/

/-- A position in the tree: child indices from the root. -/
abbrev Path := List Nat

/-- Node lookup along a path. -/
def nodeAt : Node → Path → Option Node
  | n, [] => some n
  | n, i :: p =>
    match n.childList[i]? with
    | some c => nodeAt c p
    | none => none

/-- Paths of all strict descendant elements in document (pre-)order. -/
def descElemPaths : Node → List Path
  | .text _ => []
  | .elem _ _ _ cs => goList 0 cs
where goList : Nat → List Node → List Path
  | _, [] => []
  | i, c :: cs =>
    (match c with
     | .text _ => []
     | .elem .. => [i] :: (descElemPaths c).map (fun p => i :: p)) ++
    goList (i + 1) cs

/-- Does the node at the path (relative to `n`) satisfy the predicate? -/
def matchesAt (n : Node) (p : Path) (pred : Node → Bool) : Bool :=
  match nodeAt n p with
  | some m => pred m
  | none => false

/-- Paths (relative to `n`) of all strict descendant elements satisfying the
predicate, in document order: the path-level `find_all`. -/
def descMatchingPaths (n : Node) (pred : Node → Bool) : List Path :=
  (descElemPaths n).filter (fun p => matchesAt n p pred)

/-- First match of `descMatchingPaths`: the path-level `select_one` / `find`. -/
def selectOnePath (n : Node) (pred : Node → Bool) : Option Path :=
  (descMatchingPaths n pred).head?

/-- Preceding-sibling count used by `_get_simple_position`: all siblings
before index `i` (text nodes included, see the modelling notes on
`hasattr(x, "name")`). -/
def sibCountBefore (cs : List Node) (i : Nat) : Nat :=
  (cs.take i).length

/-- Models `_get_simple_position` (parser.py lines 181-199): walk from the
element up to the document root, at each level adding the preceding-sibling
count, plus a weight of 1000 per parent step. -/
def simplePosition : Node → Path → Nat
  | _, [] => 0
  | n, i :: p =>
    1000 + sibCountBefore n.childList i +
      (match n.childList[i]? with
       | some c => simplePosition c p
       | none => 0)

/-- Up to `k` proper ancestor prefixes of a path, nearest ancestor first. -/
def ancestorPrefixes : Nat → Path → List Path
  | 0, _ => []
  | _ + 1, [] => []
  | k + 1, p => p.dropLast :: ancestorPrefixes k p.dropLast

/-- Stable insertion for the position sort. -/
def insertByPos (x : Path × Nat) : List (Path × Nat) → List (Path × Nat)
  | [] => [x]
  | y :: ys => if y.2 ≤ x.2 then y :: insertByPos x ys else x :: y :: ys

/-- Stable ascending sort by position, modelling Python `list.sort(key=...)`
(Timsort is stable). -/
def stableSortByPos : List (Path × Nat) → List (Path × Nat)
  | [] => []
  | x :: xs => insertByPos x (stableSortByPos xs)

example : simplePosition (.elem "d" [] [] [.elem "a" [] [] [], .elem "b" [] [] []]) [1] = 1001 := by
  decide

/-! ## utils.py: share-URL handling -/

/-- Character class `[a-f0-9-]` of the share-id regex. -/
def isShareIdChar (c : Char) : Bool :=
  (('a' ≤ c && c ≤ 'f') || ('0' ≤ c && c ≤ '9') || c == '-')

/-- Models `re.search("claude\\.ai/share/([a-f0-9-]+)", url)`: scan left to
right; at the first position where the literal `claude.ai/share/` is followed
by at least one `[a-f0-9-]` character, capture the maximal run. -/
def searchShareId : List Char → Option String
  | [] => none
  | c :: cs =>
    if listStartsWith (c :: cs) "claude.ai/share/".data then
      let rest := (c :: cs).drop "claude.ai/share/".length
      let run := rest.takeWhile isShareIdChar
      if run.isEmpty then searchShareId cs else some (String.mk run)
    else searchShareId cs

/-- Models `extract_share_id` (utils.py lines 12-24): regex search over the
whole URL string. -/
def extractShareId (url : String) : Option String :=
  searchShareId url.data

/-- Parsed URL components in the shape of `urllib.parse.urlparse`. -/
structure UrlParts where
  scheme : String
  netloc : String
  path : String
  query : String
  fragment : String
deriving DecidableEq

/-- Splits at the first occurrence of a character: (before, after-if-found). -/
def splitAtFirst (ch : Char) : List Char → List Char × Option (List Char)
  | [] => ([], none)
  | c :: cs =>
    if c == ch then ([], some cs)
    else
      let r := splitAtFirst ch cs
      (c :: r.1, r.2)

/-- Is this a valid URL scheme name (letter, then letters, digits, `+-.`)? -/
def validScheme : List Char → Bool
  | [] => false
  | c :: cs =>
    c.isAlpha && cs.all (fun d => d.isAlphanum || d == '+' || d == '-' || d == '.')

/-- Models `urllib.parse.urlparse` for URLs free of stray whitespace and
control characters: split off the fragment at the first `#`, recognise a
scheme before the first `:`, take the netloc after `//` up to the first of
`/?#`, and split the query at the first `?`. -/
def urlparse (url : String) : UrlParts :=
  let fr := splitAtFirst '#' url.data
  let rest0 := fr.1
  let fragment := fr.2.getD []
  let co := splitAtFirst ':' rest0
  let hasScheme := co.2.isSome && validScheme co.1
  let scheme := if hasScheme then (String.mk co.1).data.map Char.toLower else []
  let rest1 := if hasScheme then co.2.getD [] else rest0
  let hasNetloc := listStartsWith rest1 "//".data
  let netBody := rest1.drop 2
  let netloc := if hasNetloc then
      netBody.takeWhile (fun c => !(c == '/' || c == '?' || c == '#')) else []
  let rest2 := if hasNetloc then netBody.drop netloc.length else rest1
  let pq := splitAtFirst '?' rest2
  { scheme := String.mk scheme
    netloc := String.mk netloc
    path := String.mk pq.1
    query := String.mk (pq.2.getD [])
    fragment := String.mk fragment }

/-- Models `is_valid_claude_share_url` (utils.py lines 27-45): netloc is
`claude.ai`, path starts with `/share/`, and the share-id regex matches
somewhere in the URL. -/
def isValidClaudeShareUrl (url : String) : Bool :=
  let p := urlparse url
  p.netloc == "claude.ai" && strStartsWith p.path "/share/" &&
    (extractShareId url).isSome

/-- Spec-side helper naming the path segment immediately after `/share/`:
the spec's share-URL contract requires this segment to match `[a-f0-9-]+`. -/
def shareSegmentOfPath (path : String) : String :=
  String.mk ((path.data.drop "/share/".length).takeWhile (fun c => !(c == '/')))

example :
    extractShareId "https://claude.ai/share/75a3648c-8bfa-4730-b3c9-57c8a964051b" =
      some "75a3648c-8bfa-4730-b3c9-57c8a964051b" := by decide

example : (urlparse "https://claude.ai/share/XYZ#claude.ai/share/abc").path = "/share/XYZ" := by
  decide

/-! ## Title extraction (`_extract_title`, parser.py lines 72-94) -/

/-- Does the regex `\s*\|\s*Claude.*$` match at the start of this suffix?
Whitespace, a pipe, whitespace, the literal `Claude`; the trailing `.*$`
additionally requires that no newline follows (the titles being cleaned were
already stripped, so `$`-before-final-newline cannot arise). -/
def pipeClaudeMatchAt (cs : List Char) : Bool :=
  match cs.dropWhile isPyWs with
  | '|' :: rest =>
    let b := rest.dropWhile isPyWs
    listStartsWith b "Claude".data && !((b.drop "Claude".length).contains '\n')
  | _ => false

/-- Models `re.sub("\\s*\\|\\s*Claude.*$", "", title)`: truncate at the
leftmost match. -/
def stripPipeClaude : List Char → List Char
  | [] => []
  | c :: cs => if pipeClaudeMatchAt (c :: cs) then [] else c :: stripPipeClaude cs

/-- The title clean-up of `_extract_title`: remove the `| Claude` suffix,
then normalise whitespace runs. -/
def cleanTitle (t : String) : String :=
  normWs (String.mk (stripPipeClaude t.data))

/-- The prioritized title selector list of `_extract_title`:
`.truncate`, `title`, `h1`, `[data-testid="chat-title"]`, `.chat-title`,
`.conversation-title`. -/
def titleSelectors : List (Node → Bool) :=
  [ fun n => hasClassToken n "truncate"
  , fun n => tagIs n "title"
  , fun n => tagIs n "h1"
  , fun n => attrEq n "data-testid" "chat-title"
  , fun n => hasClassToken n "chat-title"
  , fun n => hasClassToken n "conversation-title" ]

/-- Stripped text of the first element matched by a selector, if any: the
candidate each loop iteration of `_extract_title` examines. -/
def candidateText (soup : Node) (sel : Node → Bool) : Option String :=
  (findFirst sel soup).map (fun e => pyStrip (getText e))

/-- Loop body of `_extract_title` over the remaining selectors. -/
def extractTitleGo (soup : Node) : List (Node → Bool) → String
  | [] => "Untitled Conversation"
  | sel :: rest =>
    match candidateText soup sel with
    | some t0 =>
      if t0 ≠ "" then
        let t := cleanTitle t0
        if t ≠ "" ∧ t ≠ "Claude" then t else extractTitleGo soup rest
      else extractTitleGo soup rest
    | none => extractTitleGo soup rest

/-- Models `_extract_title`: first selector whose element has non-empty text
and whose cleaned title is neither empty nor the bare site name wins;
otherwise `Untitled Conversation`. -/
def extractTitle (soup : Node) : String :=
  extractTitleGo soup titleSelectors

/-- Loop of `firstCandidateText` over the remaining selectors. -/
def firstCandidateGo (soup : Node) : List (Node → Bool) → Option String
  | [] => none
  | sel :: rest =>
    match candidateText soup sel with
    | some t0 => if t0 ≠ "" then some t0 else firstCandidateGo soup rest
    | none => firstCandidateGo soup rest

/-- The highest-priority title candidate: the stripped text of the first
selector yielding an element with non-empty stripped text (the element whose
text the claim about `"My Chat | Claude"` speaks of). -/
def firstCandidateText (soup : Node) : Option String :=
  firstCandidateGo soup titleSelectors

example : cleanTitle "My Chat | Claude" = "My Chat" := by decide
example : cleanTitle "Claude" = "Claude" := by decide

/-! ## Code-block rendering (parser.py lines 596-706) -/

/-- Models the span-flattening loop of `_extract_clean_code_content`: each
outermost `span` descendant is replaced by its `get_text()`.  For `get_text`
this replacement is a no-op, proved below. -/
def stripSpans : Node → Node
  | .text s => .text s
  | .elem t a cl cs => .elem t a cl (goList cs)
where goList : List Node → List Node
  | [] => []
  | c :: cs =>
    (match c with
     | .text s => Node.text s
     | .elem tag _ _ _ =>
       if tag == "span" then Node.text (getText c) else stripSpans c) :: goList cs

/-- Models `_extract_clean_code_content` (parser.py lines 596-616): flatten
spans, take the text, and strip the trailing whitespace of every line. -/
def extractCleanCodeContent (codeEl : Node) : String :=
  joinWith "\n" ((splitLines (getText (stripSpans codeEl))).map pyRstrip)

/-- The literal known-language tokens of `_detect_code_language`. -/
def knownLangTokens : List String :=
  ["python", "javascript", "java", "cpp", "csharp", "go", "rust", "typescript"]

/-- One class token of the code element, as examined by the first loop of
`_detect_code_language`: `language-` or `lang-` prefixes (with Python
`str.replace` removing every occurrence), or a literal known token. -/
def classLangHit (cls : String) : Option String :=
  if strStartsWith cls "language-" then some (removeAllOccur "language-" cls)
  else if strStartsWith cls "lang-" then some (removeAllOccur "lang-" cls)
  else if knownLangTokens.contains cls then some cls
  else none

/-- One class token of the parent element: only the `language-` prefix is
recognised there. -/
def parentLangHit (cls : String) : Option String :=
  if strStartsWith cls "language-" then some (removeAllOccur "language-" cls)
  else none

/-- The content-sniffing tail of `_detect_code_language`: keyword probes for
python, javascript, sql and cpp, in that order; empty string otherwise.
The sniffing only runs on non-empty content (`if content:`). -/
def sniffLanguage (content : String) : String :=
  if content = "" then ""
  else
    let lo := pyLower content
    if hasSub lo "def " || hasSub lo "import " || hasSub lo "python" then "python"
    else if hasSub lo "function" || hasSub lo "const " || hasSub lo "let " || hasSub lo "=>" then
      "javascript"
    else if hasSub (pyUpper content) "SELECT" && hasSub (pyUpper content) "FROM" then "sql"
    else if hasSub content "#include" || hasSub content "std::" || hasSub content "int main" then
      "cpp"
    else ""

/-- Models `_detect_code_language` (parser.py lines 671-706) as a function of
the code element's class tokens, its parent's class tokens, and its text. -/
def detectCodeLanguage (codeClasses parentClasses : List String) (content : String) : String :=
  match codeClasses.findSome? classLangHit with
  | some l => l
  | none =>
    match parentClasses.findSome? parentLangHit with
    | some l => l
    | none => sniffLanguage content

/-- Models `_apply_pygments_highlighting` (parser.py lines 628-669).  Both the
Pygments branch and the ImportError fallback emit the fenced block
`"```" + language + "\n" + code + "\n```"` with the code text unchanged; only
the language tag can be rewritten by the external lexer lookup, abstracted as
`resolve code language`.  The ImportError fallback is `resolve = fun _ l => l`. -/
def applyPygmentsHighlighting (resolve : String → String → String)
    (code lang : String) : String :=
  "```" ++ resolve code lang ++ "\n" ++ code ++ "\n```"

/-- The identity language resolution: the ImportError fallback branch of
`_apply_pygments_highlighting` (`language = language or ""` is the identity
on the strings `_detect_code_language` returns). -/
def resolveFallback : String → String → String := fun _ l => l

example : detectCodeLanguage ["language-python"] [] "" = "python" := by decide
example : detectCodeLanguage [] [] "import os" = "python" := by decide
example : detectCodeLanguage [] [] "select x from t" = "sql" := by decide

/-! ## Element formatting (`_format_html_element`, parser.py lines 785-875) -/

/-- The `pre` branch of `_format_html_element`: find the first descendant
`code` element (with its parent, for language detection), clean its content
and emit the fenced block; a `pre` without `code` is fenced raw. -/
def formatPre (resolve : String → String → String) (el : Node) : String :=
  match findFirstWithParent (fun n => tagIs n "code") el with
  | some (codeEl, par) =>
    applyPygmentsHighlighting resolve (extractCleanCodeContent codeEl)
      (detectCodeLanguage codeEl.classesOf par.classesOf (getText codeEl))
  | none => "```\n" ++ getText el ++ "\n```"

/-- Row loop of `_format_table`, carrying the number of rows already emitted
(the header separator is appended exactly when the first emitted row contains
a `th` cell). -/
def formatTableRows : Nat → List Node → List String
  | _, [] => []
  | count, tr :: rest =>
    let cells := (findAllNodes (fun n => tagIs n "td" || tagIs n "th") tr).map
      (fun c => pyStrip (getText c))
    if cells.isEmpty then formatTableRows count rest
    else
      let row := "| " ++ joinWith " | " cells ++ " |"
      if (findFirst (fun n => tagIs n "th") tr).isSome && count + 1 = 1 then
        row :: ("| " ++ joinWith " | " (cells.map (fun _ => "---")) ++ " |") ::
          formatTableRows (count + 2) rest
      else row :: formatTableRows (count + 1) rest

/-- Models `_format_table` (parser.py lines 857-875). -/
def formatTable (el : Node) : String :=
  joinWith "\n" (formatTableRows 0 (findAllNodes (fun n => tagIs n "tr") el))

/-- Heading level for `h1`-`h6` tag names. -/
def headingLevel (t : String) : Option Nat :=
  if t = "h1" then some 1 else if t = "h2" then some 2 else if t = "h3" then some 3
  else if t = "h4" then some 4 else if t = "h5" then some 5 else if t = "h6" then some 6
  else none

/-- Models `_format_html_element` (parser.py lines 785-855).  Text nodes
format to the empty string (`if not element or not element.name`).  The `div`
branch forwards a nested `pre.code-block__code` to the `pre` formatting
(the source does this through a recursive call that immediately dispatches to
the `pre` branch). -/
def formatHtmlElement (resolve : String → String → String) (el : Node) : String :=
  match el with
  | .text _ => ""
  | .elem tag _ _ _ =>
    let t := pyLower tag
    if t = "p" then pyStrip (getText el)
    else
      match headingLevel t with
      | some level => String.mk (List.replicate level '#') ++ " " ++ pyStrip (getText el)
      | none =>
        if t = "strong" || t = "b" then "**" ++ pyStrip (getText el) ++ "**"
        else if t = "em" || t = "i" then "*" ++ pyStrip (getText el) ++ "*"
        else if t = "code" then "`" ++ getText el ++ "`"
        else if t = "pre" then formatPre resolve el
        else if t = "a" then
          let href := (el.attr "href").getD ""
          let txt := pyStrip (getText el)
          if href ≠ "" then "[" ++ txt ++ "](" ++ href ++ ")" else txt
        else if t = "ul" then
          joinWith "\n" ((findAllNodes (fun n => tagIs n "li") el).map
            (fun li => "- " ++ pyStrip (getText li)))
        else if t = "ol" then
          joinWith "\n" (((findAllNodes (fun n => tagIs n "li") el).enum).map
            (fun p => toString (p.1 + 1) ++ ". " ++ pyStrip (getText p.2)))
        else if t = "blockquote" then
          joinWith "\n" ((splitLines (pyStrip (getText el))).map (fun l => "> " ++ l))
        else if t = "table" then formatTable el
        else if t = "div" then
          match findFirst (fun n => tagIs n "pre" && hasClassToken n "code-block__code") el with
          | some codePre => formatPre resolve codePre
          | none => pyStrip (getText el)
        else pyStrip (getText el)

/-- Models `_extract_structured_content` (parser.py lines 506-517): format
each direct child element and keep the non-empty stripped results, separated
by blank lines. -/
def extractStructuredContent (resolve : String → String → String) (container : Node) : String :=
  joinWith "\n\n" (container.childList.filterMap (fun c =>
    match c with
    | .text _ => none
    | .elem .. =>
      let f := pyStrip (formatHtmlElement resolve c)
      if f ≠ "" then some f else none))

/-! ## Assistant-turn content (parser.py lines 429-504) -/

/-- The `font-claude-response` direct child (first element child whose class
list is non-empty and contains the token), shared by
`_extract_thinking_process` and `_extract_claude_main_response`. -/
def claudeResponseChild (el : Node) : Option Node :=
  el.childList.find? (fun c =>
    c.isElem && !c.classesOf.isEmpty && c.classesOf.contains "font-claude-response")

/-- The reasoning signature of `_extract_thinking_process`: the joined class
string contains `grid-cols-1`, `p-3`, `pt-0` and `pr-8` as Python substrings. -/
def thinkingSignature (n : Node) : Bool :=
  let s := joinedClasses n
  hasSub s "grid-cols-1" && hasSub s "p-3" && hasSub s "pt-0" && hasSub s "pr-8"

/-- The main-answer signature of `_extract_claude_main_response`: the joined
class string contains `grid-cols-1` and `gap-2.5` and none of the three
padding substrings. -/
def mainSignature (n : Node) : Bool :=
  let s := joinedClasses n
  hasSub s "grid-cols-1" && hasSub s "gap-2.5" &&
    !hasSub s "p-3" && !hasSub s "pt-0" && !hasSub s "pr-8"

/-- Models `_extract_thinking_process` (parser.py lines 452-476): inside the
`font-claude-response` child, the first descendant `div` carrying the
reasoning signature, rendered; empty string otherwise. -/
def extractThinkingProcess (resolve : String → String → String) (el : Node) : String :=
  match claudeResponseChild el with
  | none => ""
  | some crd =>
    match findFirst (fun n => tagIs n "div" && thinkingSignature n) crd with
    | some d => extractStructuredContent resolve d
    | none => ""

/-- Models `_extract_claude_main_response` (parser.py lines 478-504). -/
def extractClaudeMainResponse (resolve : String → String → String) (el : Node) : String :=
  match claudeResponseChild el with
  | none => ""
  | some crd =>
    match findFirst (fun n => tagIs n "div" && mainSignature n) crd with
    | some d => extractStructuredContent resolve d
    | none => ""

/-- Models `_extract_message_content` (parser.py lines 429-450): user turns
render as the stripped text of the `user-message` element; assistant turns
render the thinking section under its label, then the main response, joined
by a blank line, and the result is stripped. -/
def extractMessageContent (resolve : String → String → String) (el : Node) : String :=
  match findFirst (fun n => attrEq n "data-testid" "user-message") el with
  | some um => getTextStripped um
  | none =>
    let thinking := extractThinkingProcess resolve el
    let mainc := extractClaudeMainResponse resolve el
    let parts :=
      (if thinking ≠ "" then ["**Thinking Process:**\n\n" ++ thinking] else []) ++
      (if mainc ≠ "" then [mainc] else [])
    pyStrip (joinWith "\n\n" parts)

/-! ## Role determination (`_determine_message_role`, parser.py lines 389-427) -/

/-- Models `_determine_message_role`: the prioritized battery of heuristics,
falling back to position parity. -/
def determineMessageRole (el : Node) (index : Nat) : String :=
  if (findFirst (fun n => attrEq n "data-testid" "user-message") el).isSome then "human"
  else if (findFirst (fun n => tagIs n "div" && dotString n == some "D") el).isSome then "human"
  else if el.childList.any (fun c =>
      c.isElem && !c.classesOf.isEmpty && c.classesOf.contains "font-claude-response") then
    "assistant"
  else if (findFirst (fun n => attrEq n "data-is-streaming" "false") el).isSome then "assistant"
  else
    let cs := pyLower (joinedClasses el)
    if hasSub cs "user-message" || hasSub cs "human-message" then "human"
    else if hasSub cs "claude-message" || hasSub cs "assistant-message" then "assistant"
    else
      let t := pyLower (getText el)
      if strStartsWith t "human:" || strStartsWith t "user:" || strStartsWith t "me:" then
        "human"
      else if strStartsWith t "claude:" || strStartsWith t "assistant:" ||
          strStartsWith t "ai:" then "assistant"
      else if index % 2 = 0 then "human" else "assistant"

/-! ## Turn location (`_find_message_turns`, parser.py lines 142-199) -/

/-- The styled-wrapper signature checked while walking up from a
`user-message` element: non-empty class list whose joined string contains
`rounded-xl` and `bg-bg-300` as Python substrings. -/
def styledWrapper (n : Node) : Bool :=
  !n.classesOf.isEmpty && hasSub (joinedClasses n) "rounded-xl" &&
    hasSub (joinedClasses n) "bg-bg-300"

/-- The ancestor walk of `_find_message_turns`: from the `user-message`
element at `p`, examine up to 10 ancestors (nearest first, the document root
included) and keep the first styled wrapper. -/
def findStyledAncestor (soup : Node) (p : Path) : Option Path :=
  (ancestorPrefixes 10 p).find? (fun q =>
    match nodeAt soup q with
    | some n => styledWrapper n
    | none => false)

/-- The conversation container selectors of `_extract_messages`
(parser.py lines 112-119): `main`, `[role="main"]`, `.conversation`,
`.chat-container`, `#chat`, `.messages-container`. -/
def conversationSelectors : List (Node → Bool) :=
  [ fun n => tagIs n "main"
  , fun n => attrEq n "role" "main"
  , fun n => hasClassToken n "conversation"
  , fun n => hasClassToken n "chat-container"
  , fun n => attrEq n "id" "chat"
  , fun n => hasClassToken n "messages-container" ]

/-- Container choice of `_extract_messages`: the first selector with a match
wins; otherwise the whole document (the empty path). -/
def conversationContainerPath (soup : Node) : Path := go conversationSelectors
where go : List (Node → Bool) → Path
  | [] => []
  | sel :: rest =>
    match selectOnePath soup sel with
    | some p => p
    | none => go rest

/-- Models `_find_message_turns` (parser.py lines 142-179): user containers
are styled-wrapper ancestors of `user-message` elements, Claude containers
are `div` elements with `data-is-streaming="false"`; user containers first,
then everything stably sorted by `_get_simple_position`.  Paths returned are
absolute (from the document root), because positions are computed against the
whole document. -/
def findMessageTurns (soup : Node) (base : Path) : List Path :=
  let container := (nodeAt soup base).getD (Node.elem "" [] [] [])
  let userMsgPaths := (descMatchingPaths container
    (fun n => attrEq n "data-testid" "user-message")).map (fun q => base ++ q)
  let userContainers := userMsgPaths.filterMap (fun p => findStyledAncestor soup p)
  let claudeContainers := (descMatchingPaths container
    (fun n => tagIs n "div" && attrEq n "data-is-streaming" "false")).map
    (fun q => base ++ q)
  let tagged :=
    userContainers.map (fun p => (p, simplePosition soup p)) ++
    claudeContainers.map (fun p => (p, simplePosition soup p))
  (stableSortByPos tagged).map Prod.fst

/-! ## Message assembly (parser.py lines 23-140, 368-387) -/

/-- One extracted message: the dictionary built by `_parse_message_element`
(the timestamp field is constantly None and is omitted). -/
structure Message where
  role : String
  content : String
  index : Nat
deriving DecidableEq, Repr

/-- Models `_parse_message_element` (parser.py lines 368-387): None when the
content is whitespace-only, otherwise the message with the enumeration index
it was handed. -/
def parseMessageElement (resolve : String → String → String)
    (el : Node) (index : Nat) : Option Message :=
  let role := determineMessageRole el index
  let content := extractMessageContent resolve el
  if pyStrip content = "" then none
  else some { role := role, content := content, index := index }

/-- Models `_extract_messages` (parser.py lines 103-140): locate the
conversation container, find the turn elements, and parse each with its
enumeration index, dropping empty ones (the second `content.strip()` filter
of the loop is subsumed by the one inside `_parse_message_element`). -/
def extractMessages (resolve : String → String → String) (soup : Node) : List Message :=
  let base := conversationContainerPath soup
  let turnPaths := findMessageTurns soup base
  turnPaths.enum.filterMap (fun p =>
    match nodeAt soup p.2 with
    | some el => parseMessageElement resolve el p.1
    | none => none)

/-- The metadata dictionary built by `parse_html` (the `parsed_at` wall-clock
field is a side effect outside the extraction core and is omitted). -/
structure Metadata where
  shareId : Option String
  title : String
  url : String
  date : Option String
  messageCount : Nat
deriving DecidableEq, Repr

/-- The result dictionary of `parse_html`; on the failure branch `metadata`
is the empty dictionary, modelled as `none`. -/
structure ParseResult where
  success : Bool
  metadata : Option Metadata
  messages : List Message
  error : Option String

/-- Models `_extract_date` (parser.py lines 96-101): the source
unconditionally returns None. -/
def extractDate (_soup : Node) : Option String := none

/-- Models the body of `parse_html` (parser.py lines 23-70) on an already
parsed document.  Every embedded operation is total, so the `except` branch
of the source is unreachable in the model: the result always has
`success := true` and `error := none`. -/
def parseHtmlDoc (resolve : String → String → String) (soup : Node)
    (url : String) : ParseResult :=
  let msgs := extractMessages resolve soup
  { success := true
    metadata := some
      { shareId := extractShareId url
        title := extractTitle soup
        url := url
        date := extractDate soup
        messageCount := msgs.length }
    messages := msgs
    error := none }

/-- Models the external call `BeautifulSoup(html_content, "html.parser")` on
tag-free inputs, the only ones the string-level claims use: the lenient
parser turns the empty string into an empty document and a tag-free string
into a document with that single text child. -/
def htmlToDoc (html : String) : Node :=
  Node.elem "[document]" [] [] (if html = "" then [] else [Node.text html])

/-- Models `parse_html` from the raw HTML string. -/
def parseHtml (resolve : String → String → String) (html url : String) : ParseResult :=
  parseHtmlDoc resolve (htmlToDoc html) url

/-! ## The dead fallback (`_find_alternating_content` and `_is_ui_element`,
parser.py lines 318-366).  `_find_alternating_content` is defined in the
source with the docstring "Find alternating conversation content when
standard selectors fail" but is never invoked by any code path. -/

/-- Models `_is_ui_element` (parser.py lines 347-366). -/
def isUiElement (el : Node) : Bool :=
  let classStr := pyLower (joinedClasses el)
  let idStr := pyLower ((el.attr "id").getD "")
  (["button", "nav", "header", "footer", "sidebar", "menu", "toolbar",
    "tooltip", "modal", "popup", "loading"].any (fun ind =>
      hasSub classStr ind || hasSub idStr ind)) ||
  (findFirst (fun n =>
      tagIs n "input" || tagIs n "button" || tagIs n "select" || tagIs n "textarea")
    el).isSome

/-- Models `_find_alternating_content` (parser.py lines 318-345): all `div`
descendants of the main area with stripped text longer than 20 characters
that are not UI chrome. -/
def findAlternatingContent (soup : Node) : List Node :=
  let mainEl := goSel conversationFallbackSelectors
  (findAllNodes (fun n => tagIs n "div") mainEl).filter (fun d =>
    (pyStrip (getText d)).length > 20 && !isUiElement d)
where
  conversationFallbackSelectors : List (Node → Bool) :=
    [ fun n => tagIs n "main"
    , fun n => hasClassToken n "main-content"
    , fun n => attrEq n "id" "main"
    , fun n => hasClassToken n "chat-container"
    , fun n => hasClassToken n "conversation" ]
  goSel : List (Node → Bool) → Node
  | [] => soup
  | sel :: rest =>
    match findFirst sel soup with
    | some e => e
    | none => goSel rest

/-! ## Concrete documents used by the counterexamples and witnesses -/

/-- A paragraph element with the given text. -/
def pEl (s : String) : Node := .elem "p" [] [] [.text s]

/-- A main-answer sub-container (base grid signature, no padding tokens). -/
def answerDiv (s : String) : Node := .elem "div" [] ["grid-cols-1", "gap-2.5"] [pEl s]

/-- A `font-claude-response` wrapper holding one main-answer container. -/
def fcrDiv (s : String) : Node := .elem "div" [] ["font-claude-response"] [answerDiv s]

/-- A completed assistant turn container with the given answer text. -/
def claudeTurn (s : String) : Node :=
  .elem "div" [("data-is-streaming", "false")] [] [fcrDiv s]

/-- A completed assistant turn container with no content inside. -/
def emptyClaudeTurn : Node := .elem "div" [("data-is-streaming", "false")] [] []

/-- Document with three discovered assistant containers whose middle one has
empty content: the gap counterexample for the ordinal claim. -/
def gapDoc : Node :=
  .elem "[document]" [] []
    [.elem "main" [] [] [claudeTurn "A", emptyClaudeTurn, claudeTurn "B"]]

/-- Document with two discovered assistant containers, both non-empty. -/
def noGapDoc : Node :=
  .elem "[document]" [] [] [.elem "main" [] [] [claudeTurn "A", claudeTurn "B"]]

/-- Document with two clearly alternating `Human:` / `Claude:` labelled text
blocks and no structural markers: the fallback-path input. -/
def altDoc : Node :=
  .elem "[document]" [] []
    [ .elem "div" [] [] [.text "Human: hello there, how are you doing today?"]
    , .elem "div" [] [] [.text "Claude: I am doing well, thank you for asking!"] ]

/-- Document whose first (and only) turn container sits three levels deep in
an earlier branch, while a second container is a direct child of a later
branch: the rank counterexample. -/
def deepBranchDoc : Node :=
  .elem "[document]" [] []
    [ .elem "div" [] [] [.elem "div" [] [] [emptyClaudeTurn]]
    , .elem "div" [("data-is-streaming", "false")] [] [] ]

/-- A reasoning sub-container: the three padding class tokens together with
the base grid token. -/
def thinkDiv (s : String) : Node :=
  .elem "div" [] ["grid-cols-1", "p-3", "pt-0", "pr-8"] [pEl s]

/-- An assistant turn holding a reasoning sub-container and a sibling
main-answer sub-container. -/
def reasoningTurn (ta tb : String) : Node :=
  .elem "div" [] []
    [.elem "div" [] ["font-claude-response"] [thinkDiv ta, answerDiv tb]]

/-- A sub-container that carries none of the three padding tokens `p-3`,
`pt-0`, `pr-8` as class tokens, but whose class token `p-3.5` (the class the
source itself uses for language-indicator chrome) contains `p-3` as a Python
substring. -/
def answer35Div (s : String) : Node :=
  .elem "div" [] ["grid-cols-1", "gap-2.5", "p-3.5"] [pEl s]

/-- An assistant turn whose main-answer sibling carries the `p-3.5` token:
the substring-versus-token counterexample. -/
def trickTurn : Node :=
  .elem "div" [] []
    [.elem "div" [] ["font-claude-response"] [thinkDiv "THINK", answer35Div "ANSWER"]]

/-- Document whose highest-priority title candidate is a `title` element
reading `My Chat | Claude`. -/
def titleDoc : Node :=
  .elem "[document]" [] [] [.elem "title" [] [] [.text "My Chat | Claude"]]

/-- Document whose only title candidate is an `h1` reading the bare site
name. -/
def bareTitleDoc : Node :=
  .elem "[document]" [] [] [.elem "h1" [] [] [.text "Claude"]]

/-- The spec-side description of the code clean-up: strip each line's
trailing whitespace, keeping the line structure (blank lines, leading
indentation) intact.  `extractCleanCodeContent` is definitionally this
transform applied to the text of the span-flattened element. -/
def rstripEachLine (s : String) : String :=
  joinWith "\n" ((splitLines s).map pyRstrip)

/-- A URL whose path begins `/share/` but whose following segment `XYZ` does
not match `[a-f0-9-]+`, while the fragment contains the literal
`claude.ai/share/` followed by a matching run. -/
def badShareUrl : String := "https://claude.ai/share/XYZ#claude.ai/share/abc"

example :
    extractMessages resolveFallback gapDoc =
      [ { role := "assistant", content := "A", index := 0 }
      , { role := "assistant", content := "B", index := 2 } ] := by decide

example : extractMessages resolveFallback altDoc = [] := by decide

example : (findAlternatingContent altDoc).length = 2 := by decide

example : findMessageTurns deepBranchDoc [] = [[1], [0, 0, 0]] := by decide

example : (parseHtml resolveFallback "" "https://claude.ai/share/abc").success = true := by
  decide

/-! ## Lemmas about Python-string stripping -/

lemma head_false_of_dropWhile_eq_cons {p : Char → Bool} {l : List Char} {c : Char}
    {cs : List Char} (h : l.dropWhile p = c :: cs) : p c = false := by
  have h2 := List.head?_dropWhile_not p l
  rw [h] at h2
  exact h2

lemma pyStripList_head_false {cs : List Char} {c : Char} {l : List Char}
    (h : pyStripList cs = c :: l) : isPyWs c = false := by
  have h1 : ((cs.dropWhile isPyWs).reverse.dropWhile isPyWs).getLast? = some c := by
    rw [← List.head?_reverse]
    rw [show ((cs.dropWhile isPyWs).reverse.dropWhile isPyWs).reverse = c :: l from h]
    rfl
  obtain ⟨t, ht⟩ := List.dropWhile_suffix (l := (cs.dropWhile isPyWs).reverse) isPyWs
  have h2 : (cs.dropWhile isPyWs).reverse.getLast? = some c := by
    rw [← ht, List.getLast?_append, h1]
    rfl
  rw [List.getLast?_reverse] at h2
  have h3 := List.head?_dropWhile_not isPyWs cs
  rw [h2] at h3
  exact h3

lemma pyStripList_getLast_false {cs : List Char} {c : Char}
    (h : (pyStripList cs).getLast? = some c) : isPyWs c = false := by
  have h1 : ((cs.dropWhile isPyWs).reverse.dropWhile isPyWs).head? = some c := by
    rw [← List.getLast?_reverse (l := (cs.dropWhile isPyWs).reverse.dropWhile isPyWs)]
    exact h
  have h2 := List.head?_dropWhile_not isPyWs (cs.dropWhile isPyWs).reverse
  rw [h1] at h2
  exact h2

lemma pyStripList_noop {cs : List Char}
    (h1 : ∀ c l, cs = c :: l → isPyWs c = false)
    (h2 : ∀ c, cs.getLast? = some c → isPyWs c = false) :
    pyStripList cs = cs := by
  cases cs with
  | nil => rfl
  | cons c l =>
    have hc := h1 c l rfl
    have e1 : (c :: l).dropWhile isPyWs = c :: l :=
      List.dropWhile_cons_of_neg (by simp [hc])
    unfold pyStripList
    rw [e1]
    cases hrev : (c :: l).reverse with
    | nil => exact absurd (congrArg List.length hrev) (by simp)
    | cons d m =>
      have hd : (c :: l).getLast? = some d := by
        rw [← List.head?_reverse, hrev]
        rfl
      have hdw := h2 d hd
      have e2 : List.dropWhile isPyWs (d :: m) = d :: m :=
        List.dropWhile_cons_of_neg (by simp [hdw])
      rw [e2, ← hrev, List.reverse_reverse]

lemma pyStrip_idem (s : String) : pyStrip (pyStrip s) = pyStrip s :=
  congrArg String.mk
    (pyStripList_noop (fun _ _ h => pyStripList_head_false h)
      (fun _ h => pyStripList_getLast_false h))

lemma pyStrip_noop {s : String}
    (h1 : ∀ c l, s.data = c :: l → isPyWs c = false)
    (h2 : ∀ c, s.data.getLast? = some c → isPyWs c = false) :
    pyStrip s = s :=
  congrArg String.mk (pyStripList_noop h1 h2)

/-! ## Lemmas about enumeration indices surviving a filter -/

lemma index_ge_of_mem_filterMap_enumFrom {α : Type} {g : Nat × α → Option Message}
    (hg : ∀ i q m, g (i, q) = some m → m.index = i) :
    ∀ (l : List α) (n : Nat) (m : Message), m ∈ ((l.enumFrom n).filterMap g) → n ≤ m.index := by
  intro l
  induction l with
  | nil => intro n m h; simp at h
  | cons a l ih =>
    intro n m h
    rw [List.enumFrom_cons, List.filterMap_cons] at h
    cases hga : g (n, a) with
    | none =>
      rw [hga] at h
      exact Nat.le_of_succ_le (ih (n + 1) m h)
    | some m0 =>
      rw [hga] at h
      rcases List.mem_cons.mp h with h | h
      · subst h; exact Nat.le_of_eq (hg n a m hga).symm
      · exact Nat.le_of_succ_le (ih (n + 1) m h)

lemma index_sorted_of_filterMap_enumFrom {α : Type} {g : Nat × α → Option Message}
    (hg : ∀ i q m, g (i, q) = some m → m.index = i) :
    ∀ (l : List α) (n : Nat),
      (((l.enumFrom n).filterMap g).map Message.index).Pairwise (· < ·) := by
  intro l
  induction l with
  | nil => intro n; simp
  | cons a l ih =>
    intro n
    rw [List.enumFrom_cons, List.filterMap_cons]
    cases hga : g (n, a) with
    | none => exact ih (n + 1)
    | some m0 =>
      rw [List.map_cons]
      refine List.Pairwise.cons ?_ (ih (n + 1))
      intro x hx
      rcases List.mem_map.mp hx with ⟨m1, hm1, hx1⟩
      have := index_ge_of_mem_filterMap_enumFrom hg l (n + 1) m1 hm1
      rw [hg n a m0 hga, ← hx1]
      omega

lemma index_range_of_filterMap_enumFrom_full {α : Type} {g : Nat × α → Option Message}
    (hg : ∀ i q m, g (i, q) = some m → m.index = i) :
    ∀ (l : List α) (n : Nat),
      ((l.enumFrom n).filterMap g).length = l.length →
      ((l.enumFrom n).filterMap g).map Message.index = List.range' n l.length := by
  intro l
  induction l with
  | nil => intro n _; simp
  | cons a l ih =>
    intro n hlen
    rw [List.enumFrom_cons, List.filterMap_cons] at hlen
    cases hga : g (n, a) with
    | none =>
      rw [hga] at hlen
      have h1 : ((l.enumFrom (n + 1)).filterMap g).length ≤ l.length := by
        have := List.length_filterMap_le g (l.enumFrom (n + 1))
        simpa using this
      simp only [List.length_cons] at hlen
      exact absurd hlen (by omega)
    | some m0 =>
      rw [hga] at hlen
      simp only [List.length_cons] at hlen
      rw [List.enumFrom_cons, List.filterMap_cons, hga, List.map_cons, hg n a m0 hga,
        List.length_cons, List.range'_succ]
      rw [ih (n + 1) (by omega)]

/-! ## Lemma about sibling ranks of `_get_simple_position` -/

lemma simplePosition_nil (n : Node) : simplePosition n [] = 0 := rfl

lemma simplePosition_cons (n : Node) (k : Nat) (p : Path) :
    simplePosition n (k :: p) =
      1000 + sibCountBefore n.childList k +
        (match n.childList[k]? with
         | some c => simplePosition c p
         | none => 0) := rfl

lemma simplePosition_sibling_lt :
    ∀ (p : Path) (root n : Node) (i j : Nat),
      nodeAt root p = some n → i < j → i < n.childList.length →
      simplePosition root (p ++ [i]) < simplePosition root (p ++ [j]) := by
  intro p
  induction p with
  | nil =>
    intro root n i j hn hij hilen
    have hroot : root = n := by
      simpa [nodeAt] using hn
    subst hroot
    obtain ⟨c, hc⟩ : ∃ c, root.childList[i]? = some c :=
      ⟨_, List.getElem?_eq_getElem hilen⟩
    rw [List.nil_append, List.nil_append, simplePosition_cons, simplePosition_cons]
    have hti : sibCountBefore root.childList i = i := by
      simp only [sibCountBefore, List.length_take]
      omega
    have htj : i < sibCountBefore root.childList j := by
      simp only [sibCountBefore, List.length_take]
      omega
    cases hcj : root.childList[j]? with
    | none => simp only [hc, hcj, simplePosition_nil]; omega
    | some cj => simp only [hc, hcj, simplePosition_nil]; omega
  | cons k p ih =>
    intro root n i j hn hij hilen
    simp only [nodeAt] at hn
    cases hk : root.childList[k]? with
    | none => rw [hk] at hn; exact absurd hn (by simp)
    | some c =>
      rw [hk] at hn
      have hlt := ih c n i j hn hij hilen
      rw [List.cons_append, List.cons_append, simplePosition_cons, simplePosition_cons]
      simp only [hk]
      omega

/-! ## Lemmas about the title-selector loop -/

lemma extractTitleGo_of_candidate :
    ∀ (sels : List (Node → Bool)) (soup : Node) (t : String),
      firstCandidateGo soup sels = some t →
      cleanTitle t ≠ "" → cleanTitle t ≠ "Claude" →
      extractTitleGo soup sels = cleanTitle t := by
  intro sels
  induction sels with
  | nil => intro soup t h; simp [firstCandidateGo] at h
  | cons sel rest ih =>
    intro soup t h hne hnc
    rw [firstCandidateGo] at h
    rw [extractTitleGo]
    cases hc : candidateText soup sel with
    | none =>
      simp only [hc] at h ⊢
      exact ih soup t h hne hnc
    | some t0 =>
      simp only [hc] at h ⊢
      by_cases h0 : t0 ≠ ""
      · rw [if_pos h0] at h
        have ht0 : t0 = t := Option.some_inj.mp h
        subst ht0
        rw [if_pos h0, if_pos ⟨hne, hnc⟩]
      · rw [if_neg h0] at h
        rw [if_neg h0]
        exact ih soup t h hne hnc

lemma extractTitleGo_default :
    ∀ (sels : List (Node → Bool)) (soup : Node),
      (∀ sel ∈ sels, candidateText soup sel = none ∨ candidateText soup sel = some "" ∨
        candidateText soup sel = some "Claude") →
      extractTitleGo soup sels = "Untitled Conversation" := by
  intro sels
  induction sels with
  | nil => intro soup _; rfl
  | cons sel rest ih =>
    intro soup h
    have hhead := h sel (List.mem_cons_self sel rest)
    have htail : ∀ s ∈ rest, candidateText soup s = none ∨ candidateText soup s = some "" ∨
        candidateText soup s = some "Claude" :=
      fun s hs => h s (List.mem_cons_of_mem sel hs)
    rw [extractTitleGo]
    rcases hhead with hc | hc | hc
    · simp only [hc]
      exact ih soup htail
    · simp only [hc]
      rw [if_neg (by simp)]
      exact ih soup htail
    · have hclaude : cleanTitle "Claude" = "Claude" := by decide
      simp only [hc, hclaude]
      rw [if_pos (by simp), if_neg (by simp)]
      exact ih soup htail

/-! ## Lemmas about line splitting and joining -/

lemma splitLinesAux_no_nl :
    ∀ (u acc : List Char), '\n' ∉ u →
      splitLinesAux acc u = [String.mk (acc.reverse ++ u)] := by
  intro u
  induction u with
  | nil => intro acc _; simp [splitLinesAux]
  | cons c u ih =>
    intro acc hnl
    have hc : ¬(c == '\n') = true := by
      simp only [beq_iff_eq]
      intro hcc
      exact hnl (by simp [hcc])
    rw [splitLinesAux, if_neg hc, ih _ (fun hm => hnl (List.mem_cons_of_mem c hm))]
    simp

lemma splitLinesAux_nl :
    ∀ (u acc v : List Char), '\n' ∉ u →
      splitLinesAux acc (u ++ '\n' :: v) =
        String.mk (acc.reverse ++ u) :: splitLinesAux [] v := by
  intro u
  induction u with
  | nil =>
    intro acc v _
    rw [List.nil_append, splitLinesAux, if_pos (by decide)]
    simp
  | cons c u ih =>
    intro acc v hnl
    have hc : ¬(c == '\n') = true := by
      simp only [beq_iff_eq]
      intro hcc
      exact hnl (by simp [hcc])
    rw [List.cons_append, splitLinesAux, if_neg hc,
      ih _ _ (fun hm => hnl (List.mem_cons_of_mem c hm))]
    simp

lemma splitLines_mem_no_nl :
    ∀ (cs acc : List Char), '\n' ∉ acc →
      ∀ l ∈ splitLinesAux acc cs, '\n' ∉ l.data := by
  intro cs
  induction cs with
  | nil =>
    intro acc hacc l hl
    rw [splitLinesAux] at hl
    rcases List.mem_singleton.mp hl with rfl
    simpa using hacc
  | cons c cs ih =>
    intro acc hacc l hl
    rw [splitLinesAux] at hl
    by_cases hc : (c == '\n') = true
    · rw [if_pos hc] at hl
      rcases List.mem_cons.mp hl with rfl | hl2
      · simpa using hacc
      · exact ih [] (by simp) l hl2
    · rw [if_neg hc] at hl
      refine ih (c :: acc) ?_ l hl
      intro hm
      rcases List.mem_cons.mp hm with rfl | hm2
      · exact hc (by simp)
      · exact hacc hm2

lemma splitLinesAux_ne_nil : ∀ (cs acc : List Char), splitLinesAux acc cs ≠ [] := by
  intro cs
  induction cs with
  | nil => intro acc; simp [splitLinesAux]
  | cons c cs ih =>
    intro acc
    rw [splitLinesAux]
    by_cases hc : (c == '\n') = true
    · rw [if_pos hc]; simp
    · rw [if_neg hc]; exact ih _

lemma splitLines_joinWith :
    ∀ (L : List String), L ≠ [] → (∀ l ∈ L, '\n' ∉ l.data) →
      splitLines (joinWith "\n" L) = L := by
  intro L
  induction L with
  | nil => intro h; exact absurd rfl h
  | cons x L ih =>
    intro _ hnl
    cases L with
    | nil =>
      show splitLinesAux [] x.data = [x]
      rw [splitLinesAux_no_nl x.data [] (hnl x (List.mem_singleton.mpr rfl))]
      simp
    | cons y L2 =>
      show splitLinesAux [] (x ++ "\n" ++ joinWith "\n" (y :: L2)).data = x :: y :: L2
      have hdata : (x ++ "\n" ++ joinWith "\n" (y :: L2)).data =
          x.data ++ '\n' :: (joinWith "\n" (y :: L2)).data := by
        simp [String.data_append]
      rw [hdata, splitLinesAux_nl x.data [] _ (hnl x (List.mem_cons_self x _))]
      have := ih (by simp) (fun l hl => hnl l (List.mem_cons_of_mem x hl))
      rw [show splitLinesAux [] (joinWith "\n" (y :: L2)).data =
        splitLines (joinWith "\n" (y :: L2)) from rfl, this]
      simp

lemma pyRstrip_no_nl {l : String} (h : '\n' ∉ l.data) :
    '\n' ∉ (pyRstrip l).data := by
  intro hm
  apply h
  have h1 : '\n' ∈ l.data.reverse.dropWhile isPyWs := by
    simpa [pyRstrip] using hm
  have h2 := (List.dropWhile_sublist (l := l.data.reverse) isPyWs).mem h1
  simpa using h2

lemma pyRstrip_trailing (line : String) :
    ∃ w, line.data = (pyRstrip line).data ++ w ∧ ∀ c ∈ w, isPyWs c = true := by
  refine ⟨(line.data.reverse.takeWhile isPyWs).reverse, ?_, ?_⟩
  · show line.data = (line.data.reverse.dropWhile isPyWs).reverse ++
      (line.data.reverse.takeWhile isPyWs).reverse
    rw [← List.reverse_append, List.takeWhile_append_dropWhile, List.reverse_reverse]
  · intro c hc
    rw [List.mem_reverse] at hc
    exact List.mem_takeWhile_imp hc

/-! ## Span flattening preserves the extracted text -/

lemma strAppendEmpty (s : String) : s ++ "" = s := by
  apply congrArg String.mk
  show s.data ++ [] = s.data
  simp

mutual
lemma getText_stripSpans : ∀ n : Node, getText (stripSpans n) = getText n
  | .text _ => rfl
  | .elem t a cl cs => by
    show getText.goList (stripSpans.goList cs) = getText.goList cs
    exact getTextList_stripSpans cs

lemma getTextList_stripSpans :
    ∀ cs : List Node, getText.goList (stripSpans.goList cs) = getText.goList cs
  | [] => rfl
  | c :: cs => by
    cases c with
    | text s =>
      show s ++ getText.goList (stripSpans.goList cs) = s ++ getText.goList cs
      rw [getTextList_stripSpans cs]
    | elem t a cl cs2 =>
      show getText (if t == "span" then Node.text (getText (Node.elem t a cl cs2))
          else stripSpans (Node.elem t a cl cs2)) ++ getText.goList (stripSpans.goList cs) =
        getText (Node.elem t a cl cs2) ++ getText.goList cs
      rw [getTextList_stripSpans cs]
      by_cases hspan : (t == "span") = true
      · rw [if_pos hspan]
        rfl
      · rw [if_neg hspan, getText_stripSpans (Node.elem t a cl cs2)]
end

lemma getText_pEl (s : String) : getText (pEl s) = s := by
  show s ++ "" = s
  exact strAppendEmpty s

/-! ## Lemmas about structured-content extraction on single-paragraph containers -/

lemma extractStructuredContent_single_p (resolve : String → String → String)
    (tg : String) (a : List (String × String)) (cl : List String) (s : String)
    (h : pyStrip s ≠ "") :
    extractStructuredContent resolve (Node.elem tg a cl [pEl s]) = pyStrip s := by
  have h2 : pyStrip (formatHtmlElement resolve (Node.elem "p" [] [] [Node.text s])) =
      pyStrip s := by
    have he : formatHtmlElement resolve (Node.elem "p" [] [] [Node.text s]) =
        pyStrip (s ++ "") := rfl
    rw [he, strAppendEmpty, pyStrip_idem]
  simp only [extractStructuredContent, Node.childList, pEl, List.filterMap_cons,
    List.filterMap_nil, h2]
  rw [if_pos h]
  rfl

/-! ## Lemmas about the enumeration indices of extracted messages -/

lemma extractMessages_index_prop (resolve : String → String → String) (soup : Node) :
    ∀ (i : Nat) (q : Path) (m : Message),
      (match nodeAt soup q with
       | some el => parseMessageElement resolve el i
       | none => none) = some m → m.index = i := by
  intro i q m h
  cases hq : nodeAt soup q with
  | none => rw [hq] at h; exact absurd h (by simp)
  | some el =>
    rw [hq] at h
    simp only [parseMessageElement] at h
    by_cases hc : pyStrip (extractMessageContent resolve el) = ""
    · rw [if_pos hc] at h; exact absurd h (by simp)
    · rw [if_neg hc] at h
      rw [← Option.some_inj.mp h]

lemma extractMessages_eq_filterMap (resolve : String → String → String) (soup : Node) :
    extractMessages resolve soup =
      ((findMessageTurns soup (conversationContainerPath soup)).enumFrom 0).filterMap
        (fun p => match nodeAt soup p.2 with
          | some el => parseMessageElement resolve el p.1
          | none => none) := rfl

/-! ## Claim theorems -/

/-- C1, counterexample: on `gapDoc` (three discovered assistant containers
whose middle one renders empty and is discarded), parsing succeeds with a
non-empty message list whose index values are `[0, 2]` — not the contiguous
sequence `0..len-1` the claim requires.  Enumeration indices are assigned
before the empty-content filter, so a discarded container leaves a gap. -/
theorem C1_counterexample :
    (parseHtmlDoc resolveFallback gapDoc "u").messages ≠ [] ∧
    (parseHtmlDoc resolveFallback gapDoc "u").messages.map Message.index = [0, 2] ∧
    ¬ (parseHtmlDoc resolveFallback gapDoc "u").messages.map Message.index =
        List.range (parseHtmlDoc resolveFallback gapDoc "u").messages.length := by
  decide

/-- C1, amended: the index values of the returned messages are always
strictly increasing (they are the enumeration positions among the discovered
containers), and they form exactly the contiguous sequence `0..len-1` when no
discovered container is discarded for empty content — that is, when the
message count equals the discovered-container count. -/
theorem C1_amended :
    (∀ (resolve : String → String → String) (soup : Node) (url : String),
      (((parseHtmlDoc resolve soup url).messages.map Message.index).Pairwise (· < ·))) ∧
    (∀ (resolve : String → String → String) (soup : Node) (url : String),
      (parseHtmlDoc resolve soup url).messages.length =
        (findMessageTurns soup (conversationContainerPath soup)).length →
      (parseHtmlDoc resolve soup url).messages.map Message.index =
        List.range (parseHtmlDoc resolve soup url).messages.length) := by
  constructor
  · intro resolve soup url
    show ((extractMessages resolve soup).map Message.index).Pairwise (· < ·)
    rw [extractMessages_eq_filterMap]
    exact index_sorted_of_filterMap_enumFrom
      (fun i q m h => extractMessages_index_prop resolve soup i q m h) _ 0
  · intro resolve soup url hlen
    show (extractMessages resolve soup).map Message.index =
      List.range (extractMessages resolve soup).length
    have hms : (((findMessageTurns soup (conversationContainerPath soup)).enumFrom 0).filterMap
        (fun p => match nodeAt soup p.2 with
          | some el => parseMessageElement resolve el p.1
          | none => none)).length =
        (findMessageTurns soup (conversationContainerPath soup)).length := hlen
    rw [extractMessages_eq_filterMap, List.range_eq_range']
    have hfull := index_range_of_filterMap_enumFrom_full
      (fun i q m h => extractMessages_index_prop resolve soup i q m h)
      (findMessageTurns soup (conversationContainerPath soup)) 0 hms
    rw [hfull, hms]

/-- C1, witness: on `noGapDoc` no container is discarded, the hypothesis of
the contiguity part holds, and the indices are exactly `range len`. -/
theorem C1_amended_witness :
    (parseHtmlDoc resolveFallback noGapDoc "u").messages.length =
      (findMessageTurns noGapDoc (conversationContainerPath noGapDoc)).length ∧
    (parseHtmlDoc resolveFallback noGapDoc "u").messages.map Message.index =
      List.range (parseHtmlDoc resolveFallback noGapDoc "u").messages.length :=
  ⟨by decide, C1_amended.2 resolveFallback noGapDoc "u" (by decide)⟩

/-- C2: on a document with two clearly alternating `Human:` / `Claude:`
labelled blocks and no structural markers, extraction returns zero turns —
`_find_message_turns` finds nothing and the fallback is never invoked — even
though the (dead) fallback `_find_alternating_content` would find exactly the
two blocks, and parsing those blocks would give the alternating roles
Human, Assistant.  This contradicts the claim (and the fallback's own
docstring), which require N turns with alternating roles. -/
theorem C2_fallback_never_taken :
    extractMessages resolveFallback altDoc = [] ∧
    (findAlternatingContent altDoc).length = 2 ∧
    ((findAlternatingContent altDoc).enum.map (fun p => determineMessageRole p.2 p.1)) =
      ["human", "assistant"] := by
  decide

/-- C3, counterexample: on the empty HTML input, `parse_html` returns
`success = true` with no error — not the `success = false` with an
EmptyExtraction-style error the claim requires. -/
theorem C3_counterexample :
    (parseHtml resolveFallback ""
        "https://claude.ai/share/75a3648c-8bfa-4730-b3c9-57c8a964051b").success = true ∧
    (parseHtml resolveFallback ""
        "https://claude.ai/share/75a3648c-8bfa-4730-b3c9-57c8a964051b").error = none := by
  decide

/-- C3, amended: for the empty HTML input and any URL, `parse_html` returns
`success = true` with an empty message list and `error = None`; no exception
escapes the public entry point (every embedded operation is total, the
`except` branch is unreachable). -/
theorem C3_amended :
    ∀ (resolve : String → String → String) (url : String),
      (parseHtml resolve "" url).success = true ∧
      (parseHtml resolve "" url).messages = [] ∧
      (parseHtml resolve "" url).error = none ∧
      (parseHtml resolve "" url).metadata = some
        { shareId := extractShareId url
          title := "Untitled Conversation"
          url := url
          date := none
          messageCount := 0 } :=
  fun _ _ => ⟨rfl, rfl, rfl, rfl⟩

/-- C4, amended: `extract_share_id` on the sample URL returns the sample id,
and validation rejects every URL whose parsed netloc is not `claude.ai` or
whose parsed path does not begin with `/share/`; the segment-shape part of
the claim fails (see the counterexample), because the share-id regex searches
the entire URL string rather than the path segment. -/
theorem C4_amended :
    extractShareId "https://claude.ai/share/75a3648c-8bfa-4730-b3c9-57c8a964051b" =
      some "75a3648c-8bfa-4730-b3c9-57c8a964051b" ∧
    (∀ url : String, (urlparse url).netloc ≠ "claude.ai" →
      isValidClaudeShareUrl url = false) ∧
    (∀ url : String, strStartsWith (urlparse url).path "/share/" = false →
      isValidClaudeShareUrl url = false) := by
  refine ⟨by decide, ?_, ?_⟩
  · intro url h
    have hb : ((urlparse url).netloc == "claude.ai") = false := beq_eq_false_iff_ne.mpr h
    simp [isValidClaudeShareUrl, hb]
  · intro url h
    simp [isValidClaudeShareUrl, h]

/-- C4, counterexample: a URL whose path is `/share/XYZ` — the segment after
`/share/` matches `[a-f0-9-]+` nowhere — is nevertheless accepted as valid,
because the regex finds `claude.ai/share/abc` inside the fragment. -/
theorem C4_counterexample :
    isValidClaudeShareUrl badShareUrl = true ∧
    strStartsWith (urlparse badShareUrl).path "/share/" = true ∧
    shareSegmentOfPath (urlparse badShareUrl).path = "XYZ" ∧
    ("XYZ".data.all isShareIdChar) = false := by
  decide

/-- C4, witness: the two universal rejection parts of the amended claim at
concrete URLs — a wrong host, and a path not beginning with `/share/`. -/
theorem C4_amended_witness :
    isValidClaudeShareUrl "https://example.com/share/abc" = false ∧
    isValidClaudeShareUrl "https://claude.ai/nope/claude.ai/share/abc" = false :=
  ⟨C4_amended.2.1 "https://example.com/share/abc" (by decide),
   C4_amended.2.2 "https://claude.ai/nope/claude.ai/share/abc" (by decide)⟩

/-- C6, counterexample: in `deepBranchDoc` the container at path
`[0, 0, 0]` leaves the common ancestor (the root) at child index 0, strictly
earlier than the container at path `[1]`, yet its computed rank 3000 is
strictly greater than the later branch's 1001 (each ancestor level adds
1000), and `_find_message_turns` therefore returns the two containers in
reverse document order. -/
theorem C6_counterexample :
    (0 : Nat) < 1 ∧
    simplePosition deepBranchDoc [1] < simplePosition deepBranchDoc [0, 0, 0] ∧
    findMessageTurns deepBranchDoc [] = [[1], [0, 0, 0]] := by
  decide

/-- C6, amended: the rank comparison is correct for sibling containers: if
two containers are children `i < j` of the same parent node, the earlier one
has strictly smaller `_get_simple_position` rank.  For containers whose
branches leave the common ancestor at different depths the property fails
(see the counterexample): the 1000-per-level weight makes depth dominate. -/
theorem C6_amended :
    ∀ (root n : Node) (p : Path) (i j : Nat),
      nodeAt root p = some n → i < j → i < n.childList.length →
      simplePosition root (p ++ [i]) < simplePosition root (p ++ [j]) :=
  fun root n p i j h1 h2 h3 => simplePosition_sibling_lt p root n i j h1 h2 h3

/-- C6, witness: the two sibling turn containers of `noGapDoc` under the
`main` element rank in document order. -/
theorem C6_amended_witness :
    simplePosition noGapDoc ([0] ++ [0]) < simplePosition noGapDoc ([0] ++ [1]) :=
  C6_amended noGapDoc (Node.elem "main" [] [] [claudeTurn "A", claudeTurn "B"]) [0] 0 1
    rfl (by decide) (by decide)

/-- C10: whenever `parse_html` succeeds (at the document level and at the
string level), the metadata's date field is None: `_extract_date`
unconditionally returns None, so the nullable date is always null. -/
theorem C10_date_always_none :
    (∀ (resolve : String → String → String) (soup : Node) (url : String) (md : Metadata),
      (parseHtmlDoc resolve soup url).success = true →
      (parseHtmlDoc resolve soup url).metadata = some md → md.date = none) ∧
    (∀ (resolve : String → String → String) (html url : String) (md : Metadata),
      (parseHtml resolve html url).success = true →
      (parseHtml resolve html url).metadata = some md → md.date = none) := by
  have hcore : ∀ (resolve : String → String → String) (soup : Node) (url : String)
      (md : Metadata), (parseHtmlDoc resolve soup url).metadata = some md → md.date = none := by
    intro resolve soup url md hmd
    rw [← Option.some_inj.mp hmd]
    rfl
  exact ⟨fun r s u m _ h => hcore r s u m h, fun r h u m _ hm => hcore r (htmlToDoc h) u m hm⟩

/-- C10, witness: the empty document parse succeeds and its metadata date is
None. -/
theorem C10_witness :
    (parseHtml resolveFallback "" "u").success = true ∧
    ∃ md, (parseHtml resolveFallback "" "u").metadata = some md ∧ md.date = none :=
  ⟨by decide, ⟨_, rfl, C10_date_always_none.2 resolveFallback "" "u" _ (by decide) rfl⟩⟩

/-- C5, counterexample: the sub-container of `trickTurn` carrying class
tokens `grid-cols-1 gap-2.5 p-3.5` lacks all three padding tokens `p-3`,
`pt-0`, `pr-8` — by the claim it is the main answer — yet it is not rendered
at all: the source tests the padding signature by Python substring on the
joined class string, and `p-3` occurs inside `p-3.5`. -/
theorem C5_counterexample :
    ((answer35Div "ANSWER").classesOf.contains "p-3" = false ∧
     (answer35Div "ANSWER").classesOf.contains "pt-0" = false ∧
     (answer35Div "ANSWER").classesOf.contains "pr-8" = false) ∧
    extractMessageContent resolveFallback trickTurn = "**Thinking Process:**\n\nTHINK" ∧
    hasSub (extractMessageContent resolveFallback trickTurn) "ANSWER" = false := by
  decide

/-- C5, amended: for an assistant-turn container holding a sub-container
carrying the three padding substrings (the reasoning signature) and a
sibling sub-container whose joined class string contains none of `p-3`,
`pt-0`, `pr-8` as substrings (and carries the base `grid-cols-1 gap-2.5`
signature), the rendered content places the reasoning content under the
`Thinking Process` label strictly before the main-answer content, and the
padding-free sub-container is the one rendered as the main answer. -/
theorem C5_amended :
    ∀ (resolve : String → String → String) (ta tb : String),
      pyStrip ta ≠ "" → pyStrip tb ≠ "" →
      extractMessageContent resolve (reasoningTurn ta tb) =
        "**Thinking Process:**\n\n" ++ pyStrip ta ++ "\n\n" ++ pyStrip tb := by
  intro resolve ta tb hta htb
  have hth : extractThinkingProcess resolve (reasoningTurn ta tb) =
      extractStructuredContent resolve (thinkDiv ta) := rfl
  have hmn : extractClaudeMainResponse resolve (reasoningTurn ta tb) =
      extractStructuredContent resolve (answerDiv tb) := rfl
  have ha : extractStructuredContent resolve (thinkDiv ta) = pyStrip ta :=
    extractStructuredContent_single_p resolve "div" []
      ["grid-cols-1", "p-3", "pt-0", "pr-8"] ta hta
  have hb : extractStructuredContent resolve (answerDiv tb) = pyStrip tb :=
    extractStructuredContent_single_p resolve "div" [] ["grid-cols-1", "gap-2.5"] tb htb
  show pyStrip (joinWith "\n\n"
      ((if extractThinkingProcess resolve (reasoningTurn ta tb) ≠ "" then
          ["**Thinking Process:**\n\n" ++ extractThinkingProcess resolve (reasoningTurn ta tb)]
        else []) ++
       (if extractClaudeMainResponse resolve (reasoningTurn ta tb) ≠ "" then
          [extractClaudeMainResponse resolve (reasoningTurn ta tb)]
        else []))) = _
  rw [hth, hmn, ha, hb, if_pos hta, if_pos htb]
  show pyStrip ("**Thinking Process:**\n\n" ++ pyStrip ta ++ "\n\n" ++ pyStrip tb) = _
  apply pyStrip_noop
  · intro c l h
    obtain ⟨r, hr⟩ : ∃ r, ("**Thinking Process:**\n\n" ++ pyStrip ta ++ "\n\n" ++
        pyStrip tb).data = '*' :: r := ⟨_, rfl⟩
    rw [hr] at h
    injection h with hc _
    rw [← hc]
    decide
  · intro c hc
    have hbne : (pyStrip tb).data ≠ [] := fun hnil => htb (String.ext hnil)
    obtain ⟨d, hd⟩ : ∃ d, (pyStrip tb).data.getLast? = some d := by
      cases hgl : (pyStrip tb).data.getLast? with
      | none => exact absurd (List.getLast?_eq_none_iff.mp hgl) hbne
      | some d => exact ⟨d, rfl⟩
    have hT : ("**Thinking Process:**\n\n" ++ pyStrip ta ++ "\n\n" ++
        pyStrip tb).data.getLast? = some d := by
      rw [String.data_append, List.getLast?_append, hd]
      rfl
    rw [hT] at hc
    have hdc : d = c := Option.some_inj.mp hc
    subst hdc
    exact pyStripList_getLast_false hd

/-- C5, witness: the amended claim at the concrete contents `THINK` and
`ANSWER`: the reasoning text appears under the label, strictly before the
main answer. -/
theorem C5_amended_witness :
    extractMessageContent resolveFallback (reasoningTurn "THINK" "ANSWER") =
      "**Thinking Process:**\n\n" ++ pyStrip "THINK" ++ "\n\n" ++ pyStrip "ANSWER" :=
  C5_amended resolveFallback "THINK" "ANSWER" (by decide) (by decide)

/-- C7: the rendered fenced code output is exactly the opening fence with the
(possibly rewritten) language tag, a newline, the raw code text with each
line's trailing whitespace stripped, a newline, and the closing fence: the
span-flattening step of `_extract_clean_code_content` preserves the text, so
the cleaned raw text reappears verbatim between the fences.  Moreover the
per-line clean-up preserves the line structure (so internal blank lines
survive) and only ever removes trailing whitespace from a line (so leading
indentation survives). -/
theorem C7_code_roundtrip :
    (∀ (resolve : String → String → String) (el : Node) (lang : String),
      applyPygmentsHighlighting resolve (extractCleanCodeContent el) lang =
        "```" ++ resolve (extractCleanCodeContent el) lang ++ "\n" ++
          rstripEachLine (getText el) ++ "\n```") ∧
    (∀ s : String, splitLines (rstripEachLine s) = (splitLines s).map pyRstrip) ∧
    (∀ line : String, ∃ w, line.data = (pyRstrip line).data ++ w ∧
      ∀ c ∈ w, isPyWs c = true) := by
  refine ⟨?_, ?_, pyRstrip_trailing⟩
  · intro resolve el lang
    have h : extractCleanCodeContent el = rstripEachLine (getText el) := by
      show rstripEachLine (getText (stripSpans el)) = rstripEachLine (getText el)
      rw [getText_stripSpans]
    rw [applyPygmentsHighlighting, h]
  · intro s
    show splitLines (joinWith "\n" ((splitLines s).map pyRstrip)) = _
    apply splitLines_joinWith
    · intro hmap
      exact splitLinesAux_ne_nil s.data [] (List.map_eq_nil_iff.mp hmap)
    · intro l hl
      rcases List.mem_map.mp hl with ⟨l0, hl0, rfl⟩
      exact pyRstrip_no_nl (splitLines_mem_no_nl s.data [] (by simp) l0 hl0)

/-- C8: the language tag attached to a rendered code block is computed by
`_detect_code_language` with the fixed priority the claim states: the fenced
output of a `pre` block uses the detected language of its first `code`
descendant (resolved against that descendant's parent); an explicit
`language-`/`lang-`/known-literal class token on the code element wins; else
the parent's `language-` class; else content sniffing, which only ever
produces `python`, `javascript`, `sql`, `cpp` or the empty string. -/
theorem C8_language_priority :
    (∀ (resolve : String → String → String) (el codeEl par : Node),
      findFirstWithParent (fun n => tagIs n "code") el = some (codeEl, par) →
      formatPre resolve el =
        applyPygmentsHighlighting resolve (extractCleanCodeContent codeEl)
          (detectCodeLanguage codeEl.classesOf par.classesOf (getText codeEl))) ∧
    (∀ (codeCls parentCls : List String) (content l : String),
      codeCls.findSome? classLangHit = some l →
      detectCodeLanguage codeCls parentCls content = l) ∧
    (∀ (codeCls parentCls : List String) (content l : String),
      codeCls.findSome? classLangHit = none →
      parentCls.findSome? parentLangHit = some l →
      detectCodeLanguage codeCls parentCls content = l) ∧
    (∀ (codeCls parentCls : List String) (content : String),
      codeCls.findSome? classLangHit = none →
      parentCls.findSome? parentLangHit = none →
      detectCodeLanguage codeCls parentCls content = sniffLanguage content) ∧
    (∀ content : String, sniffLanguage content = "python" ∨
      sniffLanguage content = "javascript" ∨ sniffLanguage content = "sql" ∨
      sniffLanguage content = "cpp" ∨ sniffLanguage content = "") := by
  refine ⟨?_, ?_, ?_, ?_, ?_⟩
  · intro resolve el codeEl par hff
    simp only [formatPre, hff]
  · intro codeCls parentCls content l h
    simp only [detectCodeLanguage, h]
  · intro codeCls parentCls content l h1 h2
    simp only [detectCodeLanguage, h1, h2]
  · intro codeCls parentCls content h1 h2
    simp only [detectCodeLanguage, h1, h2]
  · intro content
    by_cases h0 : content = ""
    · simp only [sniffLanguage, if_pos h0]
      tauto
    · simp only [sniffLanguage, if_neg h0]
      by_cases h1 : (hasSub (pyLower content) "def " || hasSub (pyLower content) "import " ||
          hasSub (pyLower content) "python") = true
      · rw [if_pos h1]; tauto
      · rw [if_neg h1]
        by_cases h2 : (hasSub (pyLower content) "function" ||
            hasSub (pyLower content) "const " || hasSub (pyLower content) "let " ||
            hasSub (pyLower content) "=>") = true
        · rw [if_pos h2]; tauto
        · rw [if_neg h2]
          by_cases h3 : (hasSub (pyUpper content) "SELECT" &&
              hasSub (pyUpper content) "FROM") = true
          · rw [if_pos h3]; tauto
          · rw [if_neg h3]
            by_cases h4 : (hasSub content "#include" || hasSub content "std::" ||
                hasSub content "int main") = true
            · rw [if_pos h4]; tauto
            · rw [if_neg h4]; tauto

/-- C8, witness: the priority at concrete inputs — a `lang-` class token
beats the parent's `language-` class, the parent's class beats sniffing, and
sniffing fires when both are absent; a concrete `pre` block renders with the
detected tag. -/
theorem C8_witness :
    detectCodeLanguage ["lang-rust"] ["language-java"] "import os" = "rust" ∧
    detectCodeLanguage [] ["language-java"] "import os" = "java" ∧
    detectCodeLanguage [] [] "import os" = sniffLanguage "import os" ∧
    formatPre resolveFallback
        (Node.elem "pre" [] ["code-block__code"]
          [Node.elem "code" [] ["language-python"] [Node.text "import os"]]) =
      applyPygmentsHighlighting resolveFallback
        (extractCleanCodeContent
          (Node.elem "code" [] ["language-python"] [Node.text "import os"]))
        (detectCodeLanguage ["language-python"] ["code-block__code"] "import os") :=
  ⟨C8_language_priority.2.1 ["lang-rust"] ["language-java"] "import os" "rust" (by decide),
   C8_language_priority.2.2.1 [] ["language-java"] "import os" "java" (by decide) (by decide),
   C8_language_priority.2.2.2.1 [] [] "import os" (by decide) (by decide),
   C8_language_priority.1 resolveFallback
     (Node.elem "pre" [] ["code-block__code"]
       [Node.elem "code" [] ["language-python"] [Node.text "import os"]])
     (Node.elem "code" [] ["language-python"] [Node.text "import os"])
     (Node.elem "pre" [] ["code-block__code"]
       [Node.elem "code" [] ["language-python"] [Node.text "import os"]])
     rfl⟩

/-- C9: when the highest-priority title candidate (the first selector
yielding an element with non-empty stripped text) reads `My Chat | Claude`,
the extracted title is `My Chat`; and when every selector candidate is empty
or reads the bare site name `Claude`, the extracted title is
`Untitled Conversation`. -/
theorem C9_title :
    (∀ soup : Node, firstCandidateText soup = some "My Chat | Claude" →
      extractTitle soup = "My Chat") ∧
    (∀ soup : Node,
      (∀ sel ∈ titleSelectors, candidateText soup sel = none ∨
        candidateText soup sel = some "" ∨ candidateText soup sel = some "Claude") →
      extractTitle soup = "Untitled Conversation") := by
  constructor
  · intro soup h
    have hres := extractTitleGo_of_candidate titleSelectors soup "My Chat | Claude" h
      (by decide) (by decide)
    show extractTitleGo soup titleSelectors = "My Chat"
    rw [hres]
    decide
  · intro soup h
    exact extractTitleGo_default titleSelectors soup h

/-- C9, witness: a document whose `title` element reads `My Chat | Claude`
extracts to `My Chat`, and a document whose only candidate is an `h1`
reading `Claude` extracts to `Untitled Conversation`. -/
theorem C9_title_witness :
    (firstCandidateText titleDoc = some "My Chat | Claude" ∧
      extractTitle titleDoc = "My Chat") ∧
    extractTitle bareTitleDoc = "Untitled Conversation" := by
  have hb : ∀ sel ∈ titleSelectors, candidateText bareTitleDoc sel = none ∨
      candidateText bareTitleDoc sel = some "" ∨
      candidateText bareTitleDoc sel = some "Claude" := by
    intro sel hsel
    fin_cases hsel <;> decide
  exact ⟨⟨by decide, C9_title.1 titleDoc (by decide)⟩, C9_title.2 bareTitleDoc hb⟩

end Scraper
